import Mathlib

/-
Verification of the owning dynamic-array container with strong
exception-safety on copy-assignment (copy-and-swap), as implemented in
src/exception-safety-construction/main.cpp, together with its
instrumented element type Foo and the safety/logic test harness.

The C++ is embedded shallowly: the process-wide instrumentation
(g_instance_counter, g_memory_usage, g_throw_on_constructor) is an
explicit state record threaded through every operation; C++ exceptions
become Except values, with the state on the error path recording the
side effects of all destructors run during unwinding.
-/

set_option maxHeartbeats 1000000
set_option maxRecDepth 8000

deriving instance DecidableEq for Except

namespace ExcSafety

/-- The three process-wide instrumentation globals of the program. -/
structure GState where
  g_instance_counter : Int
  g_memory_usage : Int
  g_throw_on_constructor : Bool
deriving DecidableEq

/-- The instrumented element type `Foo`: an int payload. -/
structure Foo where
  m_data : Int
deriving DecidableEq

/-- `Foo::Foo(int data = 5)`: throws if `g_throw_on_constructor` is set,
otherwise increments `g_instance_counter` (strictly after the throw check). -/
def fooCtor (data : Int) (s : GState) : Except String Foo × GState :=
  if s.g_throw_on_constructor then (.error "operation failed", s)
  else (.ok ⟨data⟩, { s with g_instance_counter := s.g_instance_counter + 1 })

/-- The element-type operations the `Array<T>` template instantiates:
value-initializing and default-initializing construction (used by
`new T[n]()` and `new T[n]`), copy-assignment (used by `std::copy`),
the destructor, and the `operator new[]` / `operator delete[]`
bookkeeping hooks. -/
structure ElemOps (T : Type) where
  valueInit : GState → Except String T × GState
  defaultInit : GState → Except String T × GState
  copyAssign : T → T → GState → Except String T × GState
  dtor : T → GState → GState
  newAcct : GState → GState
  deleteAcct : GState → GState

/-- The `Foo` instantiation: construction via `Foo()` (both init forms call
the user constructor), copy-assignment that always throws before mutating
the target, a destructor decrementing `g_instance_counter`, and array
new/delete overloads tracking `g_memory_usage`. -/
def fooOps : ElemOps Foo where
  valueInit := fooCtor 5
  defaultInit := fooCtor 5
  copyAssign := fun _l _r s => (.error "operation failed", s)
  dtor := fun _ s => { s with g_instance_counter := s.g_instance_counter - 1 }
  newAcct := fun s => { s with g_memory_usage := s.g_memory_usage + 1 }
  deleteAcct := fun s => { s with g_memory_usage := s.g_memory_usage - 1 }

/-- The `int` instantiation: value-initialization yields 0, assignment
copies the value and cannot fail, destruction and allocation hooks are
trivial (only `Foo` overloads `operator new[]`). -/
def intOps : ElemOps Int where
  valueInit := fun s => (.ok 0, s)
  defaultInit := fun s => (.ok 0, s)
  copyAssign := fun _l r s => (.ok r, s)
  dtor := fun _ s => s
  newAcct := fun s => s
  deleteAcct := fun s => s

/-- The container `Array<T>`: `m_size` and the owned buffer `m_array`
(`none` models the null pointer; `some l` models a heap buffer holding
the element values `l` in index order). -/
structure Arr (T : Type) where
  m_size : Nat
  m_array : Option (List T)
deriving DecidableEq

variable {T : Type}

/-- The element values reachable through `m_array` (empty for a null buffer). -/
def elems (a : Arr T) : List T := a.m_array.getD []

/-- Run element destructors over a list, head first. -/
def destroyList (E : ElemOps T) : List T → GState → GState
  | [], s => s
  | t :: ts, s => destroyList E ts (E.dtor t s)

/-- The element-construction loop of a `new T[k]` expression: construct
`k` elements in index order; `acc` holds the already-constructed elements
most-recent-first, so that on a construction failure they are destroyed
in reverse order of construction before the failure propagates. -/
def constructN (E : ElemOps T) (ctor : GState → Except String T × GState) :
    Nat → List T → GState → Except String (List T) × GState
  | 0, acc, s => (.ok acc.reverse, s)
  | k + 1, acc, s =>
    match ctor s with
    | (.ok t, s1) => constructN E ctor k (t :: acc) s1
    | (.error e, s1) => (.error e, destroyList E acc s1)

/-- `new T[n]` / `new T[n]()`: acquire the allocation (operator new[]),
construct the `n` elements in index order; if one fails, the
already-constructed elements are destroyed in reverse order and the
allocation is released (operator delete[]) before the failure propagates. -/
def newTArr (E : ElemOps T) (ctor : GState → Except String T × GState)
    (n : Nat) (s : GState) : Except String (List T) × GState :=
  match constructN E ctor n [] (E.newAcct s) with
  | (.ok l, s1) => (.ok l, s1)
  | (.error e, s1) => (.error e, E.deleteAcct s1)

/-- `delete[] p`: a no-op on null; otherwise destroy every element in
reverse index order, then release the allocation. -/
def deleteArr (E : ElemOps T) : Option (List T) → GState → GState
  | none, s => s
  | some l, s => E.deleteAcct (destroyList E l.reverse s)

/-- `Array(const size_t size = 0)`: `m_size := size`,
`m_array := m_size ? new T[m_size]() : nullptr`. -/
def Arr.construct (E : ElemOps T) (n : Nat) (s : GState) :
    Except String (Arr T) × GState :=
  if n = 0 then (.ok ⟨0, none⟩, s)
  else
    match newTArr E E.valueInit n s with
    | (.ok l, s1) => (.ok ⟨n, some l⟩, s1)
    | (.error e, s1) => (.error e, s1)

/-- `std::copy(src, src + k, dst)` over the two buffers: assigns source
elements into destination positions in index order via the element
copy-assignment. Returns the error (if any assignment threw), the
destination buffer contents at that point (assigned prefix updated,
the failing position and the suffix untouched), and the state. -/
def stdCopy (E : ElemOps T) : List T → List T → GState → Option String × List T × GState
  | [], dst, s => (none, dst, s)
  | _ :: _, [], s => (none, [], s)
  | a :: src, b :: dst, s =>
    match E.copyAssign b a s with
    | (.ok b1, s1) =>
      match stdCopy E src dst s1 with
      | (e, dst1, s2) => (e, b1 :: dst1, s2)
    | (.error e, s1) => (some e, b :: dst, s1)

/-- `Array(const Array& other)`: `m_size := other.m_size`,
`m_array := m_size ? new T[m_size] : nullptr`, then
`try { std::copy(other.m_array, other.m_array + m_size, m_array) }
catch(...) { delete [] m_array; throw; }`. -/
def Arr.copyCtor (E : ElemOps T) (other : Arr T) (s : GState) :
    Except String (Arr T) × GState :=
  if other.m_size = 0 then (.ok ⟨0, none⟩, s)
  else
    match newTArr E E.defaultInit other.m_size s with
    | (.error e, s1) => (.error e, s1)
    | (.ok buf, s1) =>
      match stdCopy E ((elems other).take other.m_size) buf s1 with
      | (none, dst1, s2) => (.ok ⟨other.m_size, some dst1⟩, s2)
      | (some e, dst1, s2) => (.error e, deleteArr E (some dst1) s2)

/-- `~Array()`: `delete [] m_array`. -/
def Arr.dtorRun (E : ElemOps T) (a : Arr T) (s : GState) : GState :=
  deleteArr E a.m_array s

/-- `swap(first, second)`: exchange `m_size` and `m_array` of the two
arrays (pointer/length swap, nothrow). Returns the two post-swap values. -/
def Arr.swapFn (a b : Arr T) : Arr T × Arr T :=
  (⟨b.m_size, b.m_array⟩, ⟨a.m_size, a.m_array⟩)

/-- `Array(Array&& other) : Array() { swap(*this, other); }`: the new
array takes `other`'s state; `other` is left as the default-constructed
empty array. Pure: no allocation and no failure is possible. -/
def Arr.moveCtor (other : Arr T) : Arr T × Arr T :=
  Arr.swapFn ⟨0, none⟩ other

/-- `Array& operator=(Array other) { swap(*this, other); return *this; }`
with the by-value parameter copy-constructed from the source at the call
site; after the swap the parameter holds the target's old state and is
destroyed when the call returns. On a copy failure the swap never runs
and the target is returned untouched. Result: (outcome, value of the
target after the call, state). -/
def Arr.assign (E : ElemOps T) (target other : Arr T) (s : GState) :
    Except String Unit × Arr T × GState :=
  match Arr.copyCtor E other s with
  | (.error e, s1) => (.error e, target, s1)
  | (.ok tmp, s1) =>
    match Arr.swapFn target tmp with
    | (t1, tmp1) => (.ok (), t1, Arr.dtorRun E tmp1 s1)

/-- `T& operator[](const size_t index) { assert(index < m_size); return
m_array[index]; }`: `none` models the assertion firing (abort path);
`some x` models a returned reference to element `index`. -/
def Arr.opIndex (a : Arr T) (i : Nat) : Option T :=
  if i < a.m_size then (elems a)[i]? else none

/-- The structural invariant of `Array<T>`: the buffer is non-null iff
the size is positive, and the buffer holds exactly `m_size` elements. -/
def ArrInv (a : Arr T) : Prop :=
  (a.m_array.isSome = true ↔ 0 < a.m_size) ∧ (elems a).length = a.m_size

instance (a : Arr T) : Decidable (ArrInv a) := by
  unfold ArrInv; infer_instance

/-! ## The test harness (logicTest / safetyTest / checkObjectsDestruction) -/

/-- The loop `for(i = 0; i < source.size(); ++i) source[i] = i;` of
`logicTest`, writing through `operator[]` (always in bounds). -/
def fillIota (a : Arr Int) : Arr Int :=
  ⟨a.m_size, a.m_array.map (fun l =>
    (List.range a.m_size).foldl (fun l i => l.set i (Int.ofNat i)) l)⟩

/-- The loop `for(i = 0; i < dist.size(); ++i) dist[i].reset(i);` of
`safetyTest`: `Foo::reset` overwrites `m_data` with `i` (no counter effect). -/
def resetFill (a : Arr Foo) : Arr Foo :=
  ⟨a.m_size, a.m_array.map (fun l =>
    (List.range a.m_size).foldl (fun l i => l.set i ⟨Int.ofNat i⟩) l)⟩

/-- `checkData`: report unless `array[i] == static_cast<int>(i)` for
every `i < array.size()` (`Foo` compares through its `operator int`). -/
def checkDataB (a : Arr Foo) : Bool :=
  (List.range a.m_size).all fun i =>
    match Arr.opIndex a i with
    | some x => x.m_data == Int.ofNat i
    | none => false

/-- Outcome of a harness function: it either returns normally or prints
one diagnostic and exits (`checkSize` / `checkData` / the inline checks). -/
inductive Report
  | passed
  | reported (msg : String)
deriving DecidableEq

/-- `logicTest()`: source of 100 ints filled with `source[i] = i`, target
of 50 ints; `dist = source`, check size and data; then `Array<int> dist2 =
source` (copy-construction), check size and data. Returns the pair
(dist after assignment, dist2) on the all-checks-pass path. An `Except`
error models an exception escaping the test (never happens for `int`). -/
def logicTestModel : Except String (Report × Arr Int × Arr Int) :=
  let s0 : GState := ⟨0, 0, false⟩
  match Arr.construct intOps 100 s0 with
  | (.error e, _) => .error e
  | (.ok source0, s1) =>
    let source := fillIota source0
    match Arr.construct intOps 50 s1 with
    | (.error e, _) => .error e
    | (.ok dist, s2) =>
      match Arr.assign intOps dist source s2 with
      | (.error e, _, _) => .error e
      | (.ok _, dist1, s3) =>
        if dist1.m_size ≠ 100 then
          .ok (.reported "assignment operator test failure (check size)", dist1, dist1)
        else if ¬ ((List.range dist1.m_size).all fun i =>
            (Arr.opIndex dist1 i).getD 0 == Int.ofNat i) then
          .ok (.reported "assignment operator test failure (check data)", dist1, dist1)
        else
          match Arr.copyCtor intOps source s3 with
          | (.error e, _) => .error e
          | (.ok dist2, _) =>
            if dist2.m_size ≠ 100 then
              .ok (.reported "copy constructor test failure (check size)", dist1, dist2)
            else if ¬ ((List.range dist2.m_size).all fun i =>
                (Arr.opIndex dist2 i).getD 0 == Int.ofNat i) then
              .ok (.reported "copy constructor test failure (check data)", dist1, dist2)
            else .ok (.passed, dist1, dist2)

/-- `safetyTest(throwOnConstuctor)`: build `source` (10 Foos) and `dist`
(5 Foos, payloads reset to 0..4), set the failure switch, check the heap
was used, run `dist = source` inside try/catch; on a caught exception
check `dist`'s size and data are unchanged; finally require that an
exception was in fact caught. Returns the harness outcome together with
the value of `dist` after the try/catch and the final state. -/
def safetyTestModel (throwOnConstuctor : Bool) :
    Except String (Report × Arr Foo × GState) :=
  let s0 : GState := ⟨0, 0, false⟩
  match Arr.construct fooOps 10 s0 with
  | (.error e, _) => .error e
  | (.ok source, s1) =>
    match Arr.construct fooOps 5 s1 with
    | (.error e, _) => .error e
    | (.ok dist0, s2) =>
      let dist := resetFill dist0
      let s3 : GState := { s2 with g_throw_on_constructor := throwOnConstuctor }
      if s3.g_memory_usage = 0 then
        .ok (.reported "Array is not allocated on the heap.", dist, s3)
      else
        match Arr.assign fooOps dist source s3 with
        | (.ok _, dist1, s4) =>
          .ok (.reported "Array constructor catch exception.", dist1, s4)
        | (.error _, dist1, s4) =>
          if dist1.m_size ≠ 5 then
            .ok (.reported "In case of an assignment operator failure, array size is changed.", dist1, s4)
          else if ¬ checkDataB dist1 then
            .ok (.reported "In case of an assignment operator failure, array data is changed.", dist1, s4)
          else .ok (.passed, dist1, s4)

/-! ## Traces of the public operations

A small operation language over a bank of live arrays, modelling an
arbitrary sequence of the container's public operations on the
instrumented element type: construction with any size, copy- and
move-construction, copy-assignment, swap, destruction, and flipping the
failure-injection switch between operations. -/

inductive Op
  | mkOp (n : Nat)
  | copyOp (i : Nat)
  | moveOp (i : Nat)
  | assignOp (i j : Nat)
  | swapOp (i j : Nat)
  | destroyOp (i : Nat)
  | setFlag (b : Bool)
deriving DecidableEq

/-- One step of a trace: the configuration is the instrumentation state
together with the bank of currently live arrays. An operation naming an
index outside the bank is a no-op; a construction whose exception
escapes creates no array (the harness-level catch consumes it). -/
def step (E : ElemOps T) : Op → GState × List (Arr T) → GState × List (Arr T)
  | .mkOp n, (s, arrs) =>
    match Arr.construct E n s with
    | (.ok a, s1) => (s1, arrs ++ [a])
    | (.error _, s1) => (s1, arrs)
  | .copyOp i, (s, arrs) =>
    match arrs[i]? with
    | none => (s, arrs)
    | some src =>
      match Arr.copyCtor E src s with
      | (.ok a, s1) => (s1, arrs ++ [a])
      | (.error _, s1) => (s1, arrs)
  | .moveOp i, (s, arrs) =>
    match arrs[i]? with
    | none => (s, arrs)
    | some src =>
      match Arr.moveCtor src with
      | (a, src1) => (s, (arrs.set i src1) ++ [a])
  | .assignOp i j, (s, arrs) =>
    match arrs[i]?, arrs[j]? with
    | some tgt, some src =>
      match Arr.assign E tgt src s with
      | (.ok _, t1, s1) => (s1, arrs.set i t1)
      | (.error _, _, s1) => (s1, arrs)
    | _, _ => (s, arrs)
  | .swapOp i j, (s, arrs) =>
    match arrs[i]?, arrs[j]? with
    | some a, some b =>
      match Arr.swapFn a b with
      | (a1, b1) => (s, (arrs.set i a1).set j b1)
    | _, _ => (s, arrs)
  | .destroyOp i, (s, arrs) =>
    match arrs[i]? with
    | none => (s, arrs)
    | some a => (Arr.dtorRun E a s, arrs.eraseIdx i)
  | .setFlag b, (s, arrs) => ({ s with g_throw_on_constructor := b }, arrs)

/-- Run a whole trace. -/
def run (E : ElemOps T) (ops : List Op) (c : GState × List (Arr T)) :
    GState × List (Arr T) :=
  ops.foldl (fun c op => step E op c) c

/-- Sum of an integer weight over the live arrays. -/
def wsum (f : Arr T → Int) (arrs : List (Arr T)) : Int :=
  (arrs.map f).sum

/-- Weight: number of element values held by an array. -/
def instW (a : Arr T) : Int := ((elems a).length : Int)

/-- Weight: 1 for an array owning a heap buffer, 0 for a null one. -/
def memW (a : Arr T) : Int := if a.m_array.isSome then 1 else 0

/-- The leak-freedom ledger: the process-wide counters equal the
aggregate footprint of the live arrays. -/
def Bal (c : GState × List (Arr Foo)) : Prop :=
  c.1.g_instance_counter = wsum instW c.2 ∧ c.1.g_memory_usage = wsum memW c.2

/-! ## Generic structural lemmas -/

theorem constructN_ok_length (E : ElemOps T) (ctor : GState → Except String T × GState) :
    ∀ (k : Nat) (acc : List T) (s : GState) (l : List T) (s1 : GState),
      constructN E ctor k acc s = (.ok l, s1) → l.length = acc.length + k
  | 0, acc, s, l, s1, h => by
    simp only [constructN, Prod.mk.injEq, Except.ok.injEq] at h
    obtain ⟨rfl, rfl⟩ := h
    simp
  | k + 1, acc, s, l, s1, h => by
    rw [constructN] at h
    rcases hc : ctor s with ⟨r, s2⟩
    rw [hc] at h
    cases r with
    | ok t =>
      have := constructN_ok_length E ctor k (t :: acc) s2 l s1 h
      simp at this
      omega
    | error e => simp at h

theorem stdCopy_length (E : ElemOps T) :
    ∀ (src dst : List T) (s : GState), (stdCopy E src dst s).2.1.length = dst.length
  | [], dst, s => by simp [stdCopy]
  | _ :: _, [], s => by simp [stdCopy]
  | a :: src, b :: dst, s => by
    rw [stdCopy]
    rcases hc : E.copyAssign b a s with ⟨r, s1⟩
    cases r with
    | ok b1 =>
      rcases hrec : stdCopy E src dst s1 with ⟨e, dst1, s2⟩
      have := stdCopy_length E src dst s1
      rw [hrec] at this
      simp_all
    | error e => simp

theorem stdCopy_ok_eq (E : ElemOps T)
    (hcopy : ∀ l r s x s', E.copyAssign l r s = (.ok x, s') → x = r) :
    ∀ (src dst : List T) (s : GState) (dst1 : List T) (s1 : GState),
      src.length = dst.length → stdCopy E src dst s = (none, dst1, s1) → dst1 = src
  | [], dst, s, dst1, s1, hlen, h => by
    simp only [stdCopy, Prod.mk.injEq] at h
    obtain ⟨-, rfl, -⟩ := h
    exact (List.length_eq_zero.mp hlen.symm)
  | a :: src, [], s, dst1, s1, hlen, h => by simp at hlen
  | a :: src, b :: dst, s, dst1, s1, hlen, h => by
    rw [stdCopy] at h
    split at h
    next b1 s2 heq =>
      split at h
      next e dst2 s3 hrec =>
        simp only [Prod.mk.injEq] at h
        obtain ⟨rfl, rfl, rfl⟩ := h
        have h1 : b1 = a := hcopy _ _ _ _ _ heq
        have h2 : dst2 = src := stdCopy_ok_eq E hcopy src dst s2 dst2 s3 (by simpa using hlen) hrec
        rw [h1, h2]
    next e s2 heq => simp at h

theorem newTArr_ok_length (E : ElemOps T) (ctor : GState → Except String T × GState)
    (n : Nat) (s : GState) (l : List T) (s1 : GState)
    (h : newTArr E ctor n s = (.ok l, s1)) : l.length = n := by
  rw [newTArr] at h
  split at h
  next l2 s2 heq =>
    simp only [Prod.mk.injEq, Except.ok.injEq] at h
    obtain ⟨rfl, -⟩ := h
    simpa using constructN_ok_length E ctor n [] (E.newAcct s) l2 s2 heq
  next e s2 heq => simp at h

theorem construct_ok_inv (E : ElemOps T) (n : Nat) (s : GState) (a : Arr T) (s1 : GState)
    (h : Arr.construct E n s = (.ok a, s1)) : ArrInv a := by
  rw [Arr.construct] at h
  by_cases hn : n = 0
  · simp only [hn, if_pos rfl, Prod.mk.injEq, Except.ok.injEq] at h
    obtain ⟨rfl, -⟩ := h
    constructor <;> simp [elems]
  · rw [if_neg hn] at h
    split at h
    next l s2 heq =>
      simp only [Prod.mk.injEq, Except.ok.injEq] at h
      obtain ⟨rfl, -⟩ := h
      have hl := newTArr_ok_length E E.valueInit n s l s2 heq
      constructor
      · simpa using Nat.pos_of_ne_zero hn
      · simpa [elems] using hl
    next e s2 heq => simp at h

theorem copyCtor_ok_inv (E : ElemOps T) (other : Arr T) (s : GState) (a : Arr T) (s1 : GState)
    (h : Arr.copyCtor E other s = (.ok a, s1)) : ArrInv a := by
  rw [Arr.copyCtor] at h
  by_cases hn : other.m_size = 0
  · simp only [hn, if_pos rfl, Prod.mk.injEq, Except.ok.injEq] at h
    obtain ⟨rfl, -⟩ := h
    constructor <;> simp [elems]
  · rw [if_neg hn] at h
    split at h
    next e s2 heq => simp at h
    next buf s2 heq =>
      split at h
      next dst1 s3 hsc =>
        simp only [Prod.mk.injEq, Except.ok.injEq] at h
        obtain ⟨rfl, -⟩ := h
        have hbuf : buf.length = other.m_size :=
          newTArr_ok_length E E.defaultInit other.m_size s buf s2 heq
        have hd : dst1.length = buf.length := by
          have := stdCopy_length E ((elems other).take other.m_size) buf s2
          rw [hsc] at this
          simpa using this
        constructor
        · simpa using Nat.pos_of_ne_zero hn
        · simp [elems, hd, hbuf]
      next e dst1 s3 hsc => simp at h

/-- On a successful copy-construction the result deep-equals the source:
same size and the same element values (for any element type whose
successful copy-assignment yields the source value). -/
theorem copyCtor_ok_deep (E : ElemOps T)
    (hcopy : ∀ l r s x s', E.copyAssign l r s = (.ok x, s') → x = r)
    (other : Arr T) (hsrc : ArrInv other) (s : GState) (a : Arr T) (s1 : GState)
    (h : Arr.copyCtor E other s = (.ok a, s1)) :
    a.m_size = other.m_size ∧ elems a = elems other := by
  rw [Arr.copyCtor] at h
  by_cases hn : other.m_size = 0
  · simp only [hn, if_pos rfl, Prod.mk.injEq, Except.ok.injEq] at h
    obtain ⟨rfl, -⟩ := h
    refine ⟨hn.symm, ?_⟩
    have h0 : (elems other).length = 0 := by rw [hsrc.2, hn]
    have h1 : elems other = [] := List.length_eq_zero.mp h0
    simp [elems] at h1 ⊢
    rw [h1]
  · rw [if_neg hn] at h
    split at h
    next e s2 heq => simp at h
    next buf s2 heq =>
      split at h
      next dst1 s3 hsc =>
        simp only [Prod.mk.injEq, Except.ok.injEq] at h
        obtain ⟨rfl, -⟩ := h
        have hbuf : buf.length = other.m_size :=
          newTArr_ok_length E E.defaultInit other.m_size s buf s2 heq
        have htake : (elems other).take other.m_size = elems other := by
          rw [← hsrc.2]; exact List.take_length _
        have hlen : ((elems other).take other.m_size).length = buf.length := by
          rw [htake, hsrc.2, hbuf]
        have hde := stdCopy_ok_eq E hcopy _ buf s2 dst1 s3 hlen hsc
        rw [htake] at hde
        exact ⟨rfl, by simpa [elems] using hde⟩
      next e dst1 s3 hsc => simp at h

/-! ## Closed forms for the Foo instantiation -/

theorem fooOps_valueInit : fooOps.valueInit = fooCtor 5 := rfl

theorem fooOps_defaultInit : fooOps.defaultInit = fooCtor 5 := rfl

theorem destroyList_foo : ∀ (l : List Foo) (s : GState),
    destroyList fooOps l s =
      ⟨s.g_instance_counter - l.length, s.g_memory_usage, s.g_throw_on_constructor⟩
  | [], s => by cases s; simp [destroyList]
  | t :: ts, s => by
    rw [destroyList, destroyList_foo ts]
    simp only [fooOps, List.length_cons]
    congr 1
    omega

theorem constructN_foo_false : ∀ (k : Nat) (acc : List Foo) (s : GState),
    s.g_throw_on_constructor = false →
    constructN fooOps (fooCtor 5) k acc s =
      (.ok (acc.reverse ++ List.replicate k ⟨5⟩),
        ⟨s.g_instance_counter + k, s.g_memory_usage, s.g_throw_on_constructor⟩)
  | 0, acc, s, h => by cases s; simp [constructN]
  | k + 1, acc, s, h => by
    rw [constructN]
    simp only [fooCtor, h, Bool.false_eq_true, if_false]
    rw [constructN_foo_false k (⟨5⟩ :: acc) _ (by simp [h])]
    simp only [List.reverse_cons, List.append_assoc, List.singleton_append, List.replicate_succ]
    congr 1
    push_cast
    ring_nf

theorem constructN_foo_true (k : Nat) (hk : 0 < k) (acc : List Foo) (s : GState)
    (h : s.g_throw_on_constructor = true) :
    constructN fooOps (fooCtor 5) k acc s =
      (.error "operation failed",
        ⟨s.g_instance_counter - acc.length, s.g_memory_usage, s.g_throw_on_constructor⟩) := by
  obtain ⟨m, rfl⟩ : ∃ m, k = m + 1 := ⟨k - 1, by omega⟩
  rw [constructN]
  simp only [fooCtor, h, if_true]
  rw [destroyList_foo, h]

theorem construct_foo_zero (E : ElemOps T) (s : GState) :
    Arr.construct E 0 s = (.ok ⟨0, none⟩, s) := by
  simp [Arr.construct]

theorem construct_foo_pos_false (n : Nat) (hn : 0 < n) (s : GState)
    (h : s.g_throw_on_constructor = false) :
    Arr.construct fooOps n s =
      (.ok ⟨n, some (List.replicate n ⟨5⟩)⟩,
        ⟨s.g_instance_counter + n, s.g_memory_usage + 1, s.g_throw_on_constructor⟩) := by
  rw [Arr.construct, if_neg (by omega), newTArr, fooOps_valueInit]
  rw [constructN_foo_false n [] _ (by simp [fooOps, h])]
  simp [fooOps]

theorem construct_foo_pos_true (n : Nat) (hn : 0 < n) (s : GState)
    (h : s.g_throw_on_constructor = true) :
    Arr.construct fooOps n s = (.error "operation failed", s) := by
  obtain ⟨i0, m0, f0⟩ := s
  rw [Arr.construct, if_neg (by omega), newTArr, fooOps_valueInit]
  rw [constructN_foo_true n hn [] _ (by simpa [fooOps] using h)]
  dsimp only
  simp [fooOps, GState.mk.injEq]

theorem stdCopy_foo_cons (a b : Foo) (src dst : List Foo) (s : GState) :
    stdCopy fooOps (a :: src) (b :: dst) s = (some "operation failed", b :: dst, s) := by
  rw [stdCopy]
  simp [fooOps]

theorem deleteArr_foo_some (l : List Foo) (s : GState) :
    deleteArr fooOps (some l) s =
      ⟨s.g_instance_counter - l.length, s.g_memory_usage - 1, s.g_throw_on_constructor⟩ := by
  rw [deleteArr, destroyList_foo]
  simp [fooOps]

/-- Copying a (well-formed) nonempty Foo array always fails — either in
the default-construction phase (failure switch on) or at the very first
`std::copy` assignment (Foo's copy-assignment always throws) — and in
both cases every element constructed for the new buffer is destroyed,
the buffer is released, and the instrumentation state is restored. -/
theorem copyCtor_foo_pos (src : Arr Foo) (hinv : ArrInv src) (hpos : 0 < src.m_size)
    (s : GState) : Arr.copyCtor fooOps src s = (.error "operation failed", s) := by
  obtain ⟨i0, m0, f0⟩ := s
  rw [Arr.copyCtor, if_neg (by omega)]
  cases f0 with
  | true =>
    have hne : newTArr fooOps fooOps.defaultInit src.m_size ⟨i0, m0, true⟩ =
        (.error "operation failed", ⟨i0, m0, true⟩) := by
      rw [newTArr, fooOps_defaultInit]
      rw [constructN_foo_true src.m_size hpos [] _ (by simp [fooOps])]
      simp [fooOps]
    rw [hne]
  | false =>
    have hne : newTArr fooOps fooOps.defaultInit src.m_size ⟨i0, m0, false⟩ =
        (.ok (List.replicate src.m_size ⟨5⟩), ⟨i0 + src.m_size, m0 + 1, false⟩) := by
      rw [newTArr, fooOps_defaultInit]
      rw [constructN_foo_false src.m_size [] _ (by simp [fooOps])]
      simp [fooOps]
    rw [hne]
    dsimp only
    have htake : (elems src).take src.m_size = elems src := by
      rw [← hinv.2]; exact List.take_length _
    obtain ⟨a, src', hsrc'⟩ : ∃ a src', elems src = a :: src' := by
      cases hel : elems src with
      | nil =>
        exfalso
        have hlen := hinv.2
        rw [hel] at hlen
        simp at hlen
        omega
      | cons a src' => exact ⟨a, src', rfl⟩
    obtain ⟨m, hm⟩ : ∃ m, src.m_size = m + 1 := ⟨src.m_size - 1, by omega⟩
    rw [htake, hsrc', hm, List.replicate_succ, stdCopy_foo_cons]
    dsimp only
    rw [deleteArr_foo_some]
    simp [GState.mk.injEq, hm]

theorem dtorRun_foo_none (a : Arr Foo) (h : a.m_array = none) (s : GState) :
    Arr.dtorRun fooOps a s = s := by
  rw [Arr.dtorRun, h, deleteArr]

theorem dtorRun_foo_some (a : Arr Foo) (l : List Foo) (h : a.m_array = some l) (s : GState) :
    Arr.dtorRun fooOps a s =
      ⟨s.g_instance_counter - l.length, s.g_memory_usage - 1, s.g_throw_on_constructor⟩ := by
  rw [Arr.dtorRun, h, deleteArr_foo_some]

theorem copyCtor_zero (E : ElemOps T) (other : Arr T) (h : other.m_size = 0) (s : GState) :
    Arr.copyCtor E other s = (.ok ⟨0, none⟩, s) := by
  rw [Arr.copyCtor, if_pos h]

theorem assign_foo_pos (tgt src : Arr Foo) (hinv : ArrInv src) (hpos : 0 < src.m_size)
    (s : GState) : Arr.assign fooOps tgt src s = (.error "operation failed", tgt, s) := by
  rw [Arr.assign, copyCtor_foo_pos src hinv hpos s]

theorem assign_zero (E : ElemOps T) (tgt src : Arr T) (h : src.m_size = 0) (s : GState) :
    Arr.assign E tgt src s = (.ok (), ⟨0, none⟩, Arr.dtorRun E tgt s) := by
  rw [Arr.assign, copyCtor_zero E src h s]
  rfl

/-! ## Preservation of the structural invariant along traces -/

theorem getElem?_some_mem {α : Type} {l : List α} {i : Nat} {a : α}
    (h : l[i]? = some a) : a ∈ l := by
  obtain ⟨hl, rfl⟩ := List.getElem?_eq_some.mp h
  exact List.getElem_mem hl

theorem arrInv_empty : ArrInv (⟨0, none⟩ : Arr T) := by
  constructor <;> simp [elems]

theorem arrInv_eta (a : Arr T) (h : ArrInv a) : ArrInv ⟨a.m_size, a.m_array⟩ := h

theorem assign_ok_inv (E : ElemOps T) (tgt src : Arr T) (s : GState) (u : Unit)
    (t1 : Arr T) (s1 : GState) (h : Arr.assign E tgt src s = (.ok u, t1, s1)) :
    ArrInv t1 := by
  rw [Arr.assign] at h
  split at h
  next e s2 heq => simp at h
  next tmp s2 heq =>
    simp only [Arr.swapFn, Prod.mk.injEq] at h
    obtain ⟨-, rfl, -⟩ := h
    exact arrInv_eta tmp (copyCtor_ok_inv E src s tmp s2 heq)

/-- Every array in the bank satisfies the structural invariant. -/
def AllInv (c : GState × List (Arr T)) : Prop := ∀ a ∈ c.2, ArrInv a

theorem step_allInv (E : ElemOps T) (op : Op) (c : GState × List (Arr T))
    (h : AllInv c) : AllInv (step E op c) := by
  obtain ⟨s, arrs⟩ := c
  cases op with
  | mkOp n =>
    rw [step]
    split
    next a0 s1 heq =>
      intro a ha
      rcases List.mem_append.mp ha with h1 | h1
      · exact h a h1
      · rw [List.mem_singleton.mp h1]
        exact construct_ok_inv E n s a0 s1 heq
    next e s1 heq => exact h
  | copyOp i =>
    rw [step]
    split
    next => exact h
    next src hsrc =>
      split
      next a0 s1 heq =>
        intro a ha
        rcases List.mem_append.mp ha with h1 | h1
        · exact h a h1
        · rw [List.mem_singleton.mp h1]
          exact copyCtor_ok_inv E src s a0 s1 heq
      next e s1 heq => exact h
  | moveOp i =>
    rw [step]
    split
    next => exact h
    next src hsrc =>
      simp only [Arr.moveCtor, Arr.swapFn]
      intro a ha
      rcases List.mem_append.mp ha with h1 | h1
      · rcases List.mem_or_eq_of_mem_set h1 with h2 | h2
        · exact h a h2
        · rw [h2]; exact arrInv_empty
      · rw [List.mem_singleton.mp h1]
        exact arrInv_eta src (h src (getElem?_some_mem hsrc))
  | assignOp i j =>
    rw [step]
    split
    next tgt src htgt hsrc =>
      split
      next u t1 s1 heq =>
        intro a ha
        rcases List.mem_or_eq_of_mem_set ha with h2 | h2
        · exact h a h2
        · rw [h2]; exact assign_ok_inv E tgt src s u t1 s1 heq
      next e t1 s1 heq => exact h
    next hne => exact h
  | swapOp i j =>
    rw [step]
    split
    next a0 b0 ha0 hb0 =>
      simp only [Arr.swapFn]
      intro a ha
      rcases List.mem_or_eq_of_mem_set ha with h2 | h2
      · rcases List.mem_or_eq_of_mem_set h2 with h3 | h3
        · exact h a h3
        · rw [h3]; exact arrInv_eta b0 (h b0 (getElem?_some_mem hb0))
      · rw [h2]; exact arrInv_eta a0 (h a0 (getElem?_some_mem ha0))
    next hne => exact h
  | destroyOp i =>
    rw [step]
    split
    next => exact h
    next a0 ha0 => exact fun a ha => h a (List.mem_of_mem_eraseIdx ha)
  | setFlag b => exact h

theorem run_preserve (E : ElemOps T) (P : GState × List (Arr T) → Prop)
    (hstep : ∀ op c, P c → P (step E op c)) :
    ∀ (ops : List Op) (c : GState × List (Arr T)), P c → P (run E ops c)
  | [], c, h => h
  | op :: ops, c, h => by
    rw [run]
    simp only [List.foldl_cons]
    exact run_preserve E P hstep ops (step E op c) (hstep op c h)

theorem run_allInv (E : ElemOps T) (ops : List Op) (c : GState × List (Arr T))
    (h : AllInv c) : AllInv (run E ops c) :=
  run_preserve E AllInv (step_allInv E) ops c h

/-! ## Preservation of the leak ledger along traces -/

theorem wsum_append_single (f : Arr T → Int) (l : List (Arr T)) (a : Arr T) :
    wsum f (l ++ [a]) = wsum f l + f a := by
  simp [wsum]

theorem wsum_set (f : Arr T → Int) :
    ∀ (l : List (Arr T)) (i : Nat) (b a : Arr T), l[i]? = some a →
      wsum f (l.set i b) = wsum f l - f a + f b
  | [], i, b, a, h => by simp at h
  | x :: xs, 0, b, a, h => by
    simp only [List.getElem?_cons_zero, Option.some.injEq] at h
    subst h
    simp [wsum, List.set]
    ring
  | x :: xs, i + 1, b, a, h => by
    simp only [List.getElem?_cons_succ] at h
    simp only [List.set, wsum, List.map_cons, List.sum_cons]
    have := wsum_set f xs i b a h
    rw [wsum] at this
    rw [this, wsum]
    ring

theorem wsum_eraseIdx (f : Arr T → Int) :
    ∀ (l : List (Arr T)) (i : Nat) (a : Arr T), l[i]? = some a →
      wsum f (l.eraseIdx i) = wsum f l - f a
  | [], i, a, h => by simp at h
  | x :: xs, 0, a, h => by
    simp only [List.getElem?_cons_zero, Option.some.injEq] at h
    subst h
    simp [wsum, List.eraseIdx]
  | x :: xs, i + 1, a, h => by
    simp only [List.getElem?_cons_succ] at h
    simp only [List.eraseIdx, wsum, List.map_cons, List.sum_cons]
    have := wsum_eraseIdx f xs i a h
    rw [wsum] at this
    rw [this, wsum]
    ring

theorem instW_empty : instW (⟨0, none⟩ : Arr T) = 0 := by simp [instW, elems]

theorem memW_empty : memW (⟨0, none⟩ : Arr T) = 0 := by simp [memW]

theorem instW_eta (a : Arr T) : instW ⟨a.m_size, a.m_array⟩ = instW a := rfl

theorem memW_eta (a : Arr T) : memW ⟨a.m_size, a.m_array⟩ = memW a := rfl

theorem step_bal (op : Op) (c : GState × List (Arr Foo))
    (hAll : AllInv c) (hBal : Bal c) : Bal (step fooOps op c) := by
  obtain ⟨s, arrs⟩ := c
  obtain ⟨hBi, hBm⟩ := hBal
  dsimp only at hBi hBm
  cases op with
  | mkOp n =>
    rcases Nat.eq_zero_or_pos n with hn | hn
    · subst hn
      rw [step, construct_foo_zero]
      refine ⟨?_, ?_⟩ <;>
        simp [wsum_append_single, instW_empty, memW_empty, hBi, hBm]
    · cases hfl : s.g_throw_on_constructor with
      | false =>
        rw [step, construct_foo_pos_false n hn s hfl]
        refine ⟨?_, ?_⟩ <;>
          simp [wsum_append_single, instW, memW, elems, hBi, hBm]
      | true =>
        rw [step, construct_foo_pos_true n hn s hfl]
        exact ⟨hBi, hBm⟩
  | copyOp i =>
    rw [step]
    split
    next => exact ⟨hBi, hBm⟩
    next src hsrc =>
      have hinv := hAll src (getElem?_some_mem hsrc)
      rcases Nat.eq_zero_or_pos src.m_size with hz | hp
      · rw [copyCtor_zero fooOps src hz]
        refine ⟨?_, ?_⟩ <;>
          simp [wsum_append_single, instW_empty, memW_empty, hBi, hBm]
      · rw [copyCtor_foo_pos src hinv hp]
        exact ⟨hBi, hBm⟩
  | moveOp i =>
    rw [step]
    split
    next => exact ⟨hBi, hBm⟩
    next src hsrc =>
      simp only [Arr.moveCtor, Arr.swapFn]
      dsimp only [Bal]
      refine ⟨?_, ?_⟩
      · rw [wsum_append_single, wsum_set instW arrs i ⟨0, none⟩ src hsrc,
          instW_empty, instW_eta]
        omega
      · rw [wsum_append_single, wsum_set memW arrs i ⟨0, none⟩ src hsrc,
          memW_empty, memW_eta]
        omega
  | assignOp i j =>
    rw [step]
    split
    next tgt src htgt hsrc =>
      have hinvs := hAll src (getElem?_some_mem hsrc)
      rcases Nat.eq_zero_or_pos src.m_size with hz | hp
      · rw [assign_zero fooOps tgt src hz s]
        cases htb : tgt.m_array with
        | none =>
          rw [dtorRun_foo_none tgt htb s]
          dsimp only [Bal]
          have h0 : instW tgt = 0 := by simp [instW, elems, htb]
          have h1 : memW tgt = 0 := by simp [memW, htb]
          refine ⟨?_, ?_⟩
          · rw [wsum_set instW arrs i ⟨0, none⟩ tgt htgt, instW_empty, h0]
            omega
          · rw [wsum_set memW arrs i ⟨0, none⟩ tgt htgt, memW_empty, h1]
            omega
        | some l =>
          rw [dtorRun_foo_some tgt l htb s]
          dsimp only [Bal]
          have h0 : instW tgt = l.length := by simp [instW, elems, htb]
          have h1 : memW tgt = 1 := by simp [memW, htb]
          refine ⟨?_, ?_⟩
          · rw [wsum_set instW arrs i ⟨0, none⟩ tgt htgt, instW_empty, h0]
            omega
          · rw [wsum_set memW arrs i ⟨0, none⟩ tgt htgt, memW_empty, h1]
            omega
      · rw [assign_foo_pos tgt src hinvs hp s]
        exact ⟨hBi, hBm⟩
    next hne => exact ⟨hBi, hBm⟩
  | swapOp i j =>
    rw [step]
    split
    next a0 b0 ha0 hb0 =>
      simp only [Arr.swapFn]
      dsimp only [Bal]
      have hilen : i < arrs.length := (List.getElem?_eq_some.mp ha0).1
      by_cases hij : i = j
      · subst hij
        have hb0a0 : b0 = a0 := by
          rw [ha0] at hb0
          exact (Option.some.injEq _ _ ▸ hb0).symm
        subst hb0a0
        have hset : (arrs.set i ⟨b0.m_size, b0.m_array⟩)[i]? =
            some ⟨b0.m_size, b0.m_array⟩ := by
          rw [List.getElem?_set_self]
          · simp [List.getElem?_eq_getElem, hilen]
        refine ⟨?_, ?_⟩
        · rw [wsum_set instW _ i _ _ hset,
            wsum_set instW arrs i ⟨b0.m_size, b0.m_array⟩ b0 ha0, instW_eta]
          omega
        · rw [wsum_set memW _ i _ _ hset,
            wsum_set memW arrs i ⟨b0.m_size, b0.m_array⟩ b0 ha0, memW_eta]
          omega
      · have hset : (arrs.set i ⟨b0.m_size, b0.m_array⟩)[j]? = some b0 := by
          rw [List.getElem?_set_ne hij]
          exact hb0
        refine ⟨?_, ?_⟩
        · rw [wsum_set instW _ j _ _ hset,
            wsum_set instW arrs i ⟨b0.m_size, b0.m_array⟩ a0 ha0]
          simp only [instW, elems]
          omega
        · rw [wsum_set memW _ j _ _ hset,
            wsum_set memW arrs i ⟨b0.m_size, b0.m_array⟩ a0 ha0]
          simp only [memW]
          omega
    next hne => exact ⟨hBi, hBm⟩
  | destroyOp i =>
    rw [step]
    split
    next => exact ⟨hBi, hBm⟩
    next a0 ha0 =>
      cases hab : a0.m_array with
      | none =>
        rw [dtorRun_foo_none a0 hab s]
        dsimp only [Bal]
        have h0 : instW a0 = 0 := by simp [instW, elems, hab]
        have h1 : memW a0 = 0 := by simp [memW, hab]
        refine ⟨?_, ?_⟩
        · rw [wsum_eraseIdx instW arrs i a0 ha0, h0]; omega
        · rw [wsum_eraseIdx memW arrs i a0 ha0, h1]; omega
      | some l =>
        rw [dtorRun_foo_some a0 l hab s]
        dsimp only [Bal]
        have h0 : instW a0 = l.length := by simp [instW, elems, hab]
        have h1 : memW a0 = 1 := by simp [memW, hab]
        refine ⟨?_, ?_⟩
        · rw [wsum_eraseIdx instW arrs i a0 ha0, h0]; omega
        · rw [wsum_eraseIdx memW arrs i a0 ha0, h1]; omega
  | setFlag b => exact ⟨hBi, hBm⟩

theorem run_inv_bal (ops : List Op) (c : GState × List (Arr Foo))
    (h : AllInv c ∧ Bal c) : AllInv (run fooOps ops c) ∧ Bal (run fooOps ops c) :=
  run_preserve fooOps (fun c => AllInv c ∧ Bal c)
    (fun op c hc => ⟨step_allInv fooOps op c hc.1, step_bal op c hc.1 hc.2⟩) ops c h
/-! ## Closed forms for the int instantiation -/

theorem intOps_valueInit : intOps.valueInit = fun s => (.ok 0, s) := rfl

theorem intOps_defaultInit : intOps.defaultInit = fun s => (.ok 0, s) := rfl

theorem destroyList_int : ∀ (l : List Int) (s : GState), destroyList intOps l s = s
  | [], _ => rfl
  | _ :: ts, s => destroyList_int ts s

theorem dtorRun_int (a : Arr Int) (s : GState) : Arr.dtorRun intOps a s = s := by
  rw [Arr.dtorRun]
  cases a.m_array with
  | none => rfl
  | some l =>
    rw [deleteArr, destroyList_int]
    rfl

theorem constructN_int : ∀ (k : Nat) (acc : List Int) (s : GState),
    constructN intOps (fun s => (.ok 0, s)) k acc s =
      (.ok (acc.reverse ++ List.replicate k 0), s)
  | 0, acc, s => by simp [constructN]
  | k + 1, acc, s => by
    rw [constructN]
    dsimp only
    rw [constructN_int k (0 :: acc) s]
    simp [List.replicate_succ]

theorem newTArr_int (ctor : GState → Except String Int × GState)
    (hc : ctor = fun s => (.ok 0, s)) (n : Nat) (s : GState) :
    newTArr intOps ctor n s = (.ok (List.replicate n 0), s) := by
  subst hc
  have h := constructN_int n [] (intOps.newAcct s)
  rw [newTArr, h]
  simp [intOps]

theorem construct_int_pos (n : Nat) (hn : n ≠ 0) (s : GState) :
    Arr.construct intOps n s = (.ok ⟨n, some (List.replicate n 0)⟩, s) := by
  rw [Arr.construct, if_neg hn, intOps_valueInit,
    newTArr_int (fun s => (.ok 0, s)) rfl n s]

theorem stdCopy_int : ∀ (src dst : List Int) (s : GState),
    stdCopy intOps src dst s = (none, src.take dst.length ++ dst.drop src.length, s)
  | [], dst, s => by simp [stdCopy]
  | _ :: _, [], s => by simp [stdCopy]
  | a :: src, b :: dst, s => by
    rw [stdCopy]
    rw [show intOps.copyAssign b a s = (.ok a, s) from rfl]
    dsimp only
    rw [stdCopy_int src dst s]
    simp

theorem copyCtor_int (n : Nat) (hn : n ≠ 0) (L : List Int) (hL : L.length = n)
    (s : GState) : Arr.copyCtor intOps ⟨n, some L⟩ s = (.ok ⟨n, some L⟩, s) := by
  rw [Arr.copyCtor]
  rw [if_neg hn, intOps_defaultInit, newTArr_int (fun s => (.ok 0, s)) rfl n s]
  dsimp only
  rw [show elems (⟨n, some L⟩ : Arr Int) = L from rfl]
  rw [show L.take n = L from by rw [← hL]; exact List.take_length L]
  rw [stdCopy_int L (List.replicate n 0) s]
  rw [List.length_replicate]
  rw [show List.take n L = L from by rw [← hL]; exact List.take_length L]
  rw [show List.drop L.length (List.replicate n (0 : Int)) = [] from by rw [hL]; simp]
  rw [List.append_nil]

theorem assign_int (tgt : Arr Int) (n : Nat) (hn : n ≠ 0) (L : List Int)
    (hL : L.length = n) (s : GState) :
    Arr.assign intOps tgt ⟨n, some L⟩ s = (.ok (), ⟨n, some L⟩, s) := by
  rw [Arr.assign, copyCtor_int n hn L hL s]
  dsimp only [Arr.swapFn]
  rw [dtorRun_int]

/-- The write loop `for i in [0, n): l[i] = f i` on a buffer of length at
least n replaces the first n positions with `f 0 .. f (n-1)`. -/
theorem foldl_set_range (f : Nat → Int) :
    ∀ (n : Nat) (l : List Int), n ≤ l.length →
      (List.range n).foldl (fun l i => l.set i (f i)) l =
        (List.range n).map f ++ l.drop n
  | 0, l, _ => by simp
  | n + 1, l, h => by
    have hn : n < l.length := by omega
    rw [List.range_succ, List.foldl_append, foldl_set_range f n l (by omega),
      List.foldl_cons, List.foldl_nil]
    rw [List.set_append]
    have hlen : ((List.range n).map f).length = n := by simp
    rw [hlen, if_neg (by omega), Nat.sub_self]
    rw [List.drop_eq_getElem_cons hn]
    rw [show ((l[n] :: l.drop (n + 1)).set 0 (f n)) = f n :: l.drop (n + 1) from rfl]
    simp

theorem fillIota_replicate (n : Nat) :
    fillIota ⟨n, some (List.replicate n 0)⟩ =
      ⟨n, some ((List.range n).map Int.ofNat)⟩ := by
  have h := foldl_set_range Int.ofNat n (List.replicate n 0) (by simp)
  rw [fillIota]
  congr 1
  rw [show Option.map
      (fun l => (List.range (⟨n, some (List.replicate n 0)⟩ : Arr Int).m_size).foldl
        (fun l i => l.set i (Int.ofNat i)) l)
      (some (List.replicate n 0)) =
    some ((List.range n).foldl (fun l i => l.set i (Int.ofNat i))
      (List.replicate n 0)) from rfl]
  rw [h]
  rw [show List.drop n (List.replicate n (0 : Int)) = [] from by simp]
  rw [List.append_nil]

theorem opIndex_map_range (n i : Nat) (h : i < n) :
    Arr.opIndex ⟨n, some ((List.range n).map Int.ofNat)⟩ i = some (Int.ofNat i) := by
  rw [Arr.opIndex]
  rw [if_pos (show i < (⟨n, some ((List.range n).map Int.ofNat)⟩ : Arr Int).m_size from h)]
  rw [show elems (⟨n, some ((List.range n).map Int.ofNat)⟩ : Arr Int) =
    (List.range n).map Int.ofNat from rfl]
  simp [List.getElem?_map, List.getElem?_range, h]

theorem all_check_map_range (n : Nat) :
    ((List.range n).all fun i =>
      (Arr.opIndex ⟨n, some ((List.range n).map Int.ofNat)⟩ i).getD 0 == Int.ofNat i) =
      true := by
  rw [List.all_eq_true]
  intro i hi
  rw [opIndex_map_range n i (List.mem_range.mp hi)]
  simp

/-! ## Claim theorems -/

/-- C1: Copy-assignment provides the strong guarantee: for any source and
target arrays and any point of injected element-construction failure
during assign (any element-operation behaviour whatsoever, hence failure
at any construction or duplication step), after the call either no
failure was raised and the target deep-equals the source in size and
every element, or a failure was raised and the target's size and every
element equal exactly their values immediately before the call. -/
theorem assign_strong_guarantee (E : ElemOps T)
    (hcopy : ∀ l r s x s', E.copyAssign l r s = (.ok x, s') → x = r)
    (target source : Arr T) (hsrc : ArrInv source) (s : GState) :
    (∃ e s1, Arr.assign E target source s = (.error e, target, s1)) ∨
    (∃ t1 s1, Arr.assign E target source s = (.ok (), t1, s1) ∧
      t1.m_size = source.m_size ∧ elems t1 = elems source) := by
  rcases hc : Arr.copyCtor E source s with ⟨r, s2⟩
  cases r with
  | error e =>
    left
    exact ⟨e, s2, by rw [Arr.assign, hc]⟩
  | ok tmp =>
    right
    have hd := copyCtor_ok_deep E hcopy source hsrc s tmp s2 hc
    exact ⟨⟨tmp.m_size, tmp.m_array⟩, Arr.dtorRun E ⟨target.m_size, target.m_array⟩ s2,
      by rw [Arr.assign, hc]; rfl, hd.1, hd.2⟩

theorem assign_strong_guarantee_witness :
    (∃ e s1, Arr.assign fooOps ⟨1, some [⟨0⟩]⟩ ⟨2, some [⟨5⟩, ⟨5⟩]⟩ ⟨0, 0, true⟩ =
        (.error e, ⟨1, some [⟨0⟩]⟩, s1)) ∨
    (∃ t1 s1, Arr.assign fooOps ⟨1, some [⟨0⟩]⟩ ⟨2, some [⟨5⟩, ⟨5⟩]⟩ ⟨0, 0, true⟩ =
        (.ok (), t1, s1) ∧ t1.m_size = (⟨2, some [⟨5⟩, ⟨5⟩]⟩ : Arr Foo).m_size ∧
        elems t1 = elems ⟨2, some [⟨5⟩, ⟨5⟩]⟩) :=
  assign_strong_guarantee fooOps
    (fun _l _r _s _x _s' h => by simp [fooOps] at h)
    ⟨1, some [⟨0⟩]⟩ ⟨2, some [⟨5⟩, ⟨5⟩]⟩ (by decide) ⟨0, 0, true⟩

/-- C6: Move-construction transfers buffer ownership and size from the
source to the new Array with no possibility of failure (it is a pure
function taking no instrumentation state and returning no error), never
throws and never allocates, and leaves the source with size 0 and no
buffer; destroying the moved-from source is then a safe no-op on the
state. -/
theorem moveCtor_transfer (E : ElemOps T) (other : Arr T) (s : GState) :
    (Arr.moveCtor other).1 = other ∧ (Arr.moveCtor other).2 = ⟨0, none⟩ ∧
    Arr.dtorRun E (Arr.moveCtor other).2 s = s :=
  ⟨rfl, rfl, rfl⟩

/-- C8: Out-of-range indexing is a defensively checked precondition
violation: for every index i with i ≥ size(), indexing at i (in
particular at exactly size()) takes the assertion/abort path (modelled
as `none`) rather than silently returning a value; for i < size() the
assertion passes and element i is returned. -/
theorem opIndex_bounds_checked (a : Arr T) (i : Nat) (hinv : ArrInv a) :
    (Arr.opIndex a a.m_size = none) ∧
    (a.m_size ≤ i → Arr.opIndex a i = none) ∧
    (i < a.m_size → Arr.opIndex a i = (elems a)[i]? ∧ (Arr.opIndex a i).isSome = true) := by
  refine ⟨?_, ?_, ?_⟩
  · rw [Arr.opIndex, if_neg (by omega)]
  · intro h
    rw [Arr.opIndex, if_neg (by omega)]
  · intro h
    rw [Arr.opIndex, if_pos h]
    refine ⟨rfl, ?_⟩
    have hl : i < (elems a).length := by rw [hinv.2]; exact h
    simp [List.getElem?_eq_getElem, hl]

theorem opIndex_bounds_checked_witness :
    (Arr.opIndex (⟨2, some [4, 7]⟩ : Arr Int) (⟨2, some [4, 7]⟩ : Arr Int).m_size = none) ∧
    ((⟨2, some [4, 7]⟩ : Arr Int).m_size ≤ 1 → Arr.opIndex (⟨2, some [4, 7]⟩ : Arr Int) 1 = none) ∧
    (1 < (⟨2, some [4, 7]⟩ : Arr Int).m_size →
      Arr.opIndex (⟨2, some [4, 7]⟩ : Arr Int) 1 = (elems (⟨2, some [4, 7]⟩ : Arr Int))[1]? ∧
      (Arr.opIndex (⟨2, some [4, 7]⟩ : Arr Int) 1).isSome = true) :=
  opIndex_bounds_checked ⟨2, some [4, 7]⟩ 1 (by decide)

/-- C9: Element (Foo) construction failure is raised strictly before the
live-instance counter is incremented: whenever the failure switch is
enabled, constructing an element raises the failure and leaves the
global instance counter (indeed the whole instrumentation state)
unchanged, so a failed construction is never counted as a live
instance. -/
theorem fooCtor_fails_before_increment (data : Int) (s : GState)
    (h : s.g_throw_on_constructor = true) :
    (fooCtor data s).1 = .error "operation failed" ∧
    (fooCtor data s).2.g_instance_counter = s.g_instance_counter ∧
    (fooCtor data s).2 = s := by
  rw [fooCtor, if_pos h]
  exact ⟨rfl, rfl, rfl⟩

theorem fooCtor_fails_before_increment_witness :
    (fooCtor 0 ⟨3, 1, true⟩).1 = .error "operation failed" ∧
    (fooCtor 0 ⟨3, 1, true⟩).2.g_instance_counter = (⟨3, 1, true⟩ : GState).g_instance_counter ∧
    (fooCtor 0 ⟨3, 1, true⟩).2 = ⟨3, 1, true⟩ :=
  fooCtor_fails_before_increment 0 ⟨3, 1, true⟩ rfl

/-- C10: Self-assignment is safe and idempotent: for every Array on which
copy-assignment of the element type succeeds, after a = a the array's
size and every element value equal their values before the call (the
by-value copy-and-swap implementation never aliases the target with the
source during the swap). -/
theorem assign_self_idempotent (E : ElemOps T)
    (hcopy : ∀ l r s x s', E.copyAssign l r s = (.ok x, s') → x = r)
    (a : Arr T) (hinv : ArrInv a) (s : GState) (u : Unit) (t1 : Arr T) (s1 : GState)
    (hok : Arr.assign E a a s = (.ok u, t1, s1)) :
    t1.m_size = a.m_size ∧ elems t1 = elems a := by
  rw [Arr.assign] at hok
  split at hok
  next e s2 heq => simp at hok
  next tmp s2 heq =>
    simp only [Arr.swapFn, Prod.mk.injEq] at hok
    obtain ⟨-, rfl, -⟩ := hok
    have hd := copyCtor_ok_deep E hcopy a hinv s tmp s2 heq
    exact ⟨hd.1, hd.2⟩

theorem assign_self_idempotent_witness :
    (⟨2, some [3, 4]⟩ : Arr Int).m_size = (⟨2, some [3, 4]⟩ : Arr Int).m_size ∧
    elems (⟨2, some [3, 4]⟩ : Arr Int) = elems (⟨2, some [3, 4]⟩ : Arr Int) :=
  assign_self_idempotent intOps
    (fun _l _r _s _x _s' h => by
      simp only [intOps, Prod.mk.injEq, Except.ok.injEq] at h
      exact h.1.symm)
    ⟨2, some [3, 4]⟩ (by decide) ⟨0, 0, false⟩ () ⟨2, some [3, 4]⟩ ⟨0, 0, false⟩ (by decide)

/-- C5: Concrete scenario A: for a source array of 100 integer elements
with source[i] == i (built exactly as logicTest builds it: default
construction of 100 value-initialized ints, then the fill loop) and a
target pre-sized to 50, copy-assignment succeeds, the target's size() ==
100 and target[i] == i for every i in [0,100); the same holds for an
array copy-constructed from that source. -/
theorem logicTest_scenarioA :
    Arr.construct intOps 100 ⟨0, 0, false⟩ =
      (.ok ⟨100, some (List.replicate 100 0)⟩, ⟨0, 0, false⟩) ∧
    fillIota ⟨100, some (List.replicate 100 0)⟩ =
      ⟨100, some ((List.range 100).map Int.ofNat)⟩ ∧
    Arr.construct intOps 50 ⟨0, 0, false⟩ =
      (.ok ⟨50, some (List.replicate 50 0)⟩, ⟨0, 0, false⟩) ∧
    (∃ d1 s1, Arr.assign intOps ⟨50, some (List.replicate 50 0)⟩
        ⟨100, some ((List.range 100).map Int.ofNat)⟩ ⟨0, 0, false⟩ = (.ok (), d1, s1) ∧
      d1.m_size = 100 ∧ ∀ i, i < 100 → Arr.opIndex d1 i = some (Int.ofNat i)) ∧
    (∃ d2 s2, Arr.copyCtor intOps ⟨100, some ((List.range 100).map Int.ofNat)⟩
        ⟨0, 0, false⟩ = (.ok d2, s2) ∧
      d2.m_size = 100 ∧ ∀ i, i < 100 → Arr.opIndex d2 i = some (Int.ofNat i)) := by
  refine ⟨construct_int_pos 100 (by omega) _, fillIota_replicate 100,
    construct_int_pos 50 (by omega) _, ?_, ?_⟩
  · exact ⟨⟨100, some ((List.range 100).map Int.ofNat)⟩, ⟨0, 0, false⟩,
      assign_int _ 100 (by omega) _ (by simp) _, rfl,
      fun i hi => opIndex_map_range 100 i hi⟩
  · exact ⟨⟨100, some ((List.range 100).map Int.ofNat)⟩, ⟨0, 0, false⟩,
      copyCtor_int 100 (by omega) _ (by simp) _, rfl,
      fun i hi => opIndex_map_range 100 i hi⟩

/-- C3 counterexample: in the safety scenario's success path
(`trigger_failure = false`), the assignment of the 10-element Foo source
into the 5-element target does NOT complete without failure: starting
from the exact state the harness reaches (10+5 live instances, 2 live
buffers, switch off), `dist = source` raises "operation failed", because
`std::copy` inside the by-value parameter's copy-construction uses Foo's
copy-assignment, which always throws. -/
theorem safety_success_path_failure_cex :
    Arr.construct fooOps 10 ⟨0, 0, false⟩ =
      (.ok ⟨10, some (List.replicate 10 ⟨5⟩)⟩, ⟨10, 1, false⟩) ∧
    Arr.construct fooOps 5 ⟨10, 1, false⟩ =
      (.ok ⟨5, some (List.replicate 5 ⟨5⟩)⟩, ⟨15, 2, false⟩) ∧
    resetFill ⟨5, some (List.replicate 5 ⟨5⟩)⟩ = ⟨5, some [⟨0⟩, ⟨1⟩, ⟨2⟩, ⟨3⟩, ⟨4⟩]⟩ ∧
    (Arr.assign fooOps ⟨5, some [⟨0⟩, ⟨1⟩, ⟨2⟩, ⟨3⟩, ⟨4⟩]⟩
        ⟨10, some (List.replicate 10 ⟨5⟩)⟩ ⟨15, 2, false⟩).1 =
      .error "operation failed" := by
  refine ⟨?_, ?_, ?_, ?_⟩ <;> decide

/-- C3 amended: in the safety scenario's success path
(`trigger_failure = false`), assigning the source array of
failure-capable elements into the smaller target still raises a failure
(Foo's copy-assignment, used by `std::copy` during the by-value
parameter's copy-construction, always throws); the harness catches the
exception, the target is left completely unchanged (its size and
index-valued payloads intact and the instrumentation state restored),
and safetyTest(false) completes with every check passing. -/
theorem safety_success_path_behavior :
    safetyTestModel false =
      .ok (.passed, ⟨5, some [⟨0⟩, ⟨1⟩, ⟨2⟩, ⟨3⟩, ⟨4⟩]⟩, ⟨15, 2, false⟩) ∧
    Arr.assign fooOps ⟨5, some [⟨0⟩, ⟨1⟩, ⟨2⟩, ⟨3⟩, ⟨4⟩]⟩
        ⟨10, some (List.replicate 10 ⟨5⟩)⟩ ⟨15, 2, false⟩ =
      (.error "operation failed", ⟨5, some [⟨0⟩, ⟨1⟩, ⟨2⟩, ⟨3⟩, ⟨4⟩]⟩, ⟨15, 2, false⟩) := by
  refine ⟨?_, ?_⟩ <;> decide

/-- C4 counterexample: copy-construction from the 10-element Foo source
(failure switch off) fails while duplicating element 0 — zero elements
were successfully duplicated and the state is untouched by the failed
`std::copy` step — yet the rollback destroys all 10 elements of the new
buffer (the live-instance counter falls from its peak 20 back to 10,
i.e. ten destructor calls), not "exactly the already-duplicated elements
0..i-1" (which would be zero destructor calls for i = 0). -/
theorem copyCtor_rollback_cex :
    newTArr fooOps fooOps.defaultInit 10 ⟨10, 1, false⟩ =
      (.ok (List.replicate 10 ⟨5⟩), ⟨20, 2, false⟩) ∧
    stdCopy fooOps (List.replicate 10 ⟨5⟩) (List.replicate 10 ⟨5⟩) ⟨20, 2, false⟩ =
      (some "operation failed", List.replicate 10 ⟨5⟩, ⟨20, 2, false⟩) ∧
    deleteArr fooOps (some (List.replicate 10 ⟨5⟩)) ⟨20, 2, false⟩ = ⟨10, 1, false⟩ ∧
    ((⟨10, 1, false⟩ : GState).g_instance_counter ≠
      (⟨20, 2, false⟩ : GState).g_instance_counter) ∧
    Arr.copyCtor fooOps ⟨10, some (List.replicate 10 ⟨5⟩)⟩ ⟨10, 1, false⟩ =
      (.error "operation failed", ⟨10, 1, false⟩) := by
  refine ⟨?_, ?_, ?_, ?_, ?_⟩ <;> decide

/-- C4 amended: copy-construction first default-constructs all
source.size elements of the new buffer in index order (with the failure
switch on, the construction of element 0 itself fails, nothing has to be
destroyed, and the buffer is released); with the switch off all
source.size elements are constructed (the instance counter rises by
exactly source.size), then elements are duplicated one at a time in
index order via element copy-assignment; when duplicating element i
fails, ALL source.size elements of the new buffer — the i duplicated
ones together with the remaining default-constructed ones — are
destroyed in reverse order, the new buffer is released (counters return
exactly to their pre-call values), and the same failure is propagated to
the caller. -/
theorem copyCtor_failure_rollback (n : Nat) (hn : 0 < n) (src : List Foo)
    (hlen : src.length = n) (i m : Int) :
    newTArr fooOps fooOps.defaultInit n ⟨i, m, false⟩ =
      (.ok (List.replicate n ⟨5⟩), ⟨i + n, m + 1, false⟩) ∧
    deleteArr fooOps (some (List.replicate n ⟨5⟩)) ⟨i + n, m + 1, false⟩ = ⟨i, m, false⟩ ∧
    Arr.copyCtor fooOps ⟨n, some src⟩ ⟨i, m, false⟩ =
      (.error "operation failed", ⟨i, m, false⟩) ∧
    Arr.copyCtor fooOps ⟨n, some src⟩ ⟨i, m, true⟩ =
      (.error "operation failed", ⟨i, m, true⟩) := by
  have hinv : ArrInv (⟨n, some src⟩ : Arr Foo) := by
    constructor
    · simpa using hn
    · simpa [elems] using hlen
  refine ⟨?_, ?_, ?_, ?_⟩
  · rw [newTArr, fooOps_defaultInit, constructN_foo_false n [] _ rfl]
    simp [fooOps]
  · rw [deleteArr_foo_some]
    simp
  · exact copyCtor_foo_pos ⟨n, some src⟩ hinv (by simpa using hn) ⟨i, m, false⟩
  · exact copyCtor_foo_pos ⟨n, some src⟩ hinv (by simpa using hn) ⟨i, m, true⟩

theorem copyCtor_failure_rollback_witness :
    (newTArr fooOps fooOps.defaultInit 2 ⟨3, 1, false⟩ =
      (.ok (List.replicate 2 ⟨5⟩), ⟨3 + 2, 1 + 1, false⟩)) ∧
    deleteArr fooOps (some (List.replicate 2 ⟨5⟩)) ⟨3 + 2, 1 + 1, false⟩ = ⟨3, 1, false⟩ ∧
    Arr.copyCtor fooOps ⟨2, some [⟨5⟩, ⟨7⟩]⟩ ⟨3, 1, false⟩ =
      (.error "operation failed", ⟨3, 1, false⟩) ∧
    Arr.copyCtor fooOps ⟨2, some [⟨5⟩, ⟨7⟩]⟩ ⟨3, 1, true⟩ =
      (.error "operation failed", ⟨3, 1, true⟩) :=
  copyCtor_failure_rollback 2 (by decide) [⟨5⟩, ⟨7⟩] (by decide) 3 1

/-- C2: No-leak property: for any sequence of construct / copy-construct /
move-construct / copy-assign / swap / destroy operations on Arrays of the
instrumented element type (with the failure switch toggled arbitrarily
between operations, injecting construction failures mid-copy), once every
owning Array has gone out of scope the global live-instance counter and
live-allocation counter are both zero. -/
theorem no_leak_after_all_destroyed (ops : List Op)
    (h : (run fooOps ops (⟨0, 0, false⟩, [])).2 = []) :
    (run fooOps ops (⟨0, 0, false⟩, [])).1.g_instance_counter = 0 ∧
    (run fooOps ops (⟨0, 0, false⟩, [])).1.g_memory_usage = 0 := by
  have hini : AllInv ((⟨0, 0, false⟩, []) : GState × List (Arr Foo)) ∧
      Bal ((⟨0, 0, false⟩, []) : GState × List (Arr Foo)) := by
    refine ⟨fun a ha => absurd ha (by simp), ?_, ?_⟩ <;> simp [wsum]
  obtain ⟨-, hBi, hBm⟩ := run_inv_bal ops _ hini
  rw [h] at hBi hBm
  simp [wsum] at hBi hBm
  exact ⟨hBi, hBm⟩

theorem no_leak_after_all_destroyed_witness :
    (run fooOps [.mkOp 2, .setFlag true, .mkOp 3, .setFlag false, .mkOp 0,
        .assignOp 0 1, .destroyOp 1, .destroyOp 0] (⟨0, 0, false⟩, [])).2 = [] ∧
    ((run fooOps [.mkOp 2, .setFlag true, .mkOp 3, .setFlag false, .mkOp 0,
        .assignOp 0 1, .destroyOp 1, .destroyOp 0]
        (⟨0, 0, false⟩, [])).1.g_instance_counter = 0 ∧
      (run fooOps [.mkOp 2, .setFlag true, .mkOp 3, .setFlag false, .mkOp 0,
        .assignOp 0 1, .destroyOp 1, .destroyOp 0]
        (⟨0, 0, false⟩, [])).1.g_memory_usage = 0) :=
  ⟨by decide,
    no_leak_after_all_destroyed
      [.mkOp 2, .setFlag true, .mkOp 3, .setFlag false, .mkOp 0,
        .assignOp 0 1, .destroyOp 1, .destroyOp 0] (by decide)⟩

/-- C7: Structural invariant: for every Array produced by any sequence of
the public operations (construct with any size, copy-construct,
move-construct, copy-assign, swap, destroy) starting from an empty bank
and any instrumentation state, the buffer pointer is non-null if and
only if size > 0. -/
theorem buffer_iff_size_invariant (E : ElemOps T) (s0 : GState) (ops : List Op)
    (a : Arr T) (ha : a ∈ (run E ops (s0, [])).2) :
    a.m_array.isSome = true ↔ 0 < a.m_size := by
  have hAll := run_allInv E ops (s0, []) (fun x hx => absurd hx (by simp))
  exact (hAll a ha).1

theorem buffer_iff_size_invariant_witness :
    (⟨2, some [0, 0]⟩ : Arr Int) ∈ (run intOps [.mkOp 2] (⟨0, 0, false⟩, [])).2 ∧
    ((⟨2, some [0, 0]⟩ : Arr Int).m_array.isSome = true ↔
      0 < (⟨2, some [0, 0]⟩ : Arr Int).m_size) :=
  ⟨by decide, buffer_iff_size_invariant intOps ⟨0, 0, false⟩ [.mkOp 2]
    ⟨2, some [0, 0]⟩ (by decide)⟩

end ExcSafety
